import Mathlib

/-!
Verification of the orbital window compositor (`crates/orbital/main.rs`).

The compositor state (`OrbitalScheme`), the scheme operations
(`open`/`read`/`write`/`close`) and the event loop phases are embedded
shallowly from `crates/orbital/main.rs`.  The `Window` record and the raw
`Event` record live in `crates/orbital/window.rs` and
`kernel/common/event.rs`, which are not part of the sources at hand; those
two are modelled from the specification (§3, §4.1) and are marked as such.

Machine integers are modelled as `Int` with explicit two's-complement
wrapping where the source performs fixed-width arithmetic (`isize`
handle-counter increment, `as i32` / `as i64` casts, `i64` subtraction).
-/

set_option maxHeartbeats 1000000
set_option linter.unusedVariables false

/-- `2^31`, the magnitude bound of `i32`. -/
def i32Half : Int := 2147483648

/-- `2^32`. -/
def i32Mod : Int := 4294967296

/-- `2^63`, the magnitude bound of `i64`/`isize` on a 64-bit target. -/
def i64Half : Int := 9223372036854775808

/-- `2^64`. -/
def i64Mod : Int := 18446744073709551616

/-- Two's-complement wrap to signed 32 bits (Rust `as i32`, wrapping `i32` ops). -/
def wrap32 (n : Int) : Int := (n + i32Half) % i32Mod - i32Half

/-- Two's-complement wrap to signed 64 bits (Rust wrapping `i64` ops). -/
def wrap64 (n : Int) : Int := (n + i64Half) % i64Mod - i64Half

/-- Two's-complement wrap for `isize` on a 64-bit target. -/
def wrapIsize (n : Int) : Int := wrap64 n

/-- Rust `as usize` applied to an `isize` value (64-bit target). -/
def usizeOfIsize (n : Int) : Nat := (n % i64Mod).toNat

/-- Modelled from the spec: `kernel/common/event.rs` is not under `src/`.
A raw input event: a class code and three signed 64-bit payload fields
(`a`,`b` = coordinates for pointer events, `c` = button/press state). -/
structure Event where
  code : Int
  a : Int
  b : Int
  c : Int
deriving DecidableEq

/-- Modelled from the spec: `kernel/common/event.rs` is not under `src/`.
Class code of keyboard events. -/
def EVENT_KEY : Int := 2

/-- Modelled from the spec: `kernel/common/event.rs` is not under `src/`.
Class code of mouse (pointer) events. -/
def EVENT_MOUSE : Int := 3

/-- Modelled from the spec: `kernel/common/event.rs` is not under `src/`.
The synthesized quit/close event delivered when the close button is hit. -/
def quitEvent : Event := { code := 4, a := 0, b := 0, c := 0 }

/-- Modelled from the spec: `crates/orbital/window.rs` is not under `src/`.
Serialized byte size of one event record (four 64-bit fields). -/
def eventSize : Nat := 32

/-- Modelled from the spec: `crates/orbital/window.rs` is not under `src/`.
Height in pixels of the title-bar decoration strip above the content
rectangle. -/
def titleBarHeight : Int := 18

/-- Modelled from the spec (§3, §4.1): `crates/orbital/window.rs` is not under
`src/`.  A compositor-owned window record: geometry, title, content pixel
buffer (as bytes) and the queue of client-bound events. -/
structure Window where
  x : Int
  y : Int
  width : Int
  height : Int
  title : String
  content : List Nat
  events : List Event
deriving DecidableEq

/-- Modelled from the spec (§3): window creation with a zero-filled content
buffer sized by the geometry. -/
def Window.new (x y width height : Int) (title : String) : Window :=
  { x := x, y := y, width := width, height := height, title := title,
    content := List.replicate (4 * (width.toNat * height.toNat)) 0,
    events := [] }

/-- Modelled from the spec (§4.1): true iff the point lies within the
window's content rectangle. -/
def Window.contains (w : Window) (px py : Int) : Bool :=
  decide (w.x ≤ px ∧ px < w.x + w.width ∧ w.y ≤ py ∧ py < w.y + w.height)

/-- Modelled from the spec (§4.1): true iff the point lies within the
title-bar decoration strip above the content rectangle. -/
def Window.title_contains (w : Window) (px py : Int) : Bool :=
  decide (w.x ≤ px ∧ px < w.x + w.width ∧ w.y - titleBarHeight ≤ py ∧ py < w.y)

/-- Modelled from the spec (§4.1): true iff the point lies within the
close-button sub-region of the title bar. -/
def Window.exit_contains (w : Window) (px py : Int) : Bool :=
  decide (w.x + w.width - titleBarHeight ≤ px ∧ px < w.x + w.width ∧
          w.y - titleBarHeight ≤ py ∧ py < w.y)

/-- Modelled from the spec (§4.1): `event(e)` appends `e` to the window's
event queue. -/
def Window.event (w : Window) (e : Event) : Window :=
  { w with events := w.events ++ [e] }

/-- Modelled from the spec (§4.1): `read(buf)` pops and serializes up to as
many queued events as fit in the buffer and returns the bytes written
(`0`, not an error, when the queue is empty).  The buffer is abstracted to
its length. -/
def Window.read (w : Window) (bufLen : Nat) : Window × Nat :=
  let k := min (bufLen / eventSize) w.events.length
  ({ w with events := w.events.drop k }, k * eventSize)

/-- Modelled from the spec (§4.1): `write(buf)` copies the buffer into the
content pixel buffer starting at offset 0, up to its capacity; excess input
is dropped; returns the bytes consumed. -/
def Window.write (w : Window) (buf : List Nat) : Window × Nat :=
  let k := min buf.length w.content.length
  ({ w with content := buf.take k ++ w.content.drop k }, k)

/-- Rust `str::split` on a single-character pattern, over the character
list: splitting an empty list yields one empty piece, exactly as
`"".split("/")` yields `[""]`. -/
def splitOnChar (c : Char) : List Char → List (List Char)
  | [] => [[]]
  | a :: rest =>
    if a = c then [] :: splitOnChar c rest
    else
      match splitOnChar c rest with
      | [] => [[a]]
      | g :: gs => (a :: g) :: gs

/-- `path.split("/")` from the source, producing the delimiter-separated
components as strings. -/
def rustSplit (c : Char) (s : String) : List String :=
  (splitOnChar c s.data).map String.mk

/-- Rust `str::parse::<i32>()`: an optional single sign followed by at
least one ASCII digit, with the value required to fit in `i32`; anything
else is a parse failure. -/
def parseI32 (s : String) : Option Int :=
  let signDigits : Int × List Char :=
    match s.data with
    | '+' :: rest => (1, rest)
    | '-' :: rest => (-1, rest)
    | rest => (1, rest)
  let sign := signDigits.1
  let digits := signDigits.2
  if digits.isEmpty then none
  else if digits.all Char.isDigit then
    let n : Nat := digits.foldl (fun acc ch => acc * 10 + (ch.toNat - 48)) 0
    let v : Int := sign * (n : Int)
    if -i32Half ≤ v ∧ v < i32Half then some v else none
  else none

/-- The error kind of the scheme protocol: `EBADF` (bad handle). -/
inductive SysError
  | EBADF
deriving DecidableEq

/-- The compositor state, from `struct OrbitalScheme` in
`crates/orbital/main.rs`.  The external display is abstracted to its pixel
dimensions (`display.width()`, `display.height()`); the cursor sprite is
pure output and carries no state. -/
structure OrbitalScheme where
  displayWidth : Int
  displayHeight : Int
  cursor_x : Int
  cursor_y : Int
  dragging : Bool
  drag_x : Int
  drag_y : Int
  next_id : Int
  next_x : Int
  next_y : Int
  order : List Nat
  windows : Nat → Option Window
  redraw : Bool

/-- `OrbitalScheme::new`, for a display of the given dimensions. -/
def OrbitalScheme.new (width height : Int) : OrbitalScheme :=
  { displayWidth := width, displayHeight := height,
    cursor_x := 0, cursor_y := 0,
    dragging := false, drag_x := 0, drag_y := 0,
    next_id := 1, next_x := 20, next_y := 20,
    order := [], windows := fun _ => none, redraw := true }

/-- The title computation of `fn open`: the next remaining component (or
`""` when exhausted), with every later component appended behind a
re-inserted delimiter (`title.push('/'); title.push_str(part)`). -/
def rustJoinTitle (parts : List String) : String :=
  match parts with
  | [] => ""
  | t :: rest => rest.foldl (fun acc part => acc ++ "/" ++ part) t

/-- `Scheme::open` for `OrbitalScheme` (`fn open` in `main.rs`): parse the
path (skipping the first delimiter-separated component), allocate the next
handle with wrap-to-1 on `isize` overflow, auto-place when both parsed
coordinates are negative, push the handle to the front of `order`, insert
the window, set `redraw`, and return the handle. -/
def OrbitalScheme.openWindow (s : OrbitalScheme) (path : String)
    (flags mode : Nat) : OrbitalScheme × Except SysError Nat :=
  let parts := (rustSplit '/' path).drop 1
  let x0 := (parseI32 (parts.getD 0 "")).getD 0
  let y0 := (parseI32 (parts.getD 1 "")).getD 0
  let width := (parseI32 (parts.getD 2 "")).getD 0
  let height := (parseI32 (parts.getD 3 "")).getD 0
  let title := rustJoinTitle (parts.drop 4)
  let id := usizeOfIsize s.next_id
  let bumped := wrapIsize (s.next_id + 1)
  let nid := if bumped < 0 then 1 else bumped
  if x0 < 0 ∧ y0 < 0 then
    let x := s.next_x
    let y := s.next_y
    let nx1 := s.next_x + 20
    let nx := if s.displayWidth ≤ nx1 + 20 then 20 else nx1
    let ny1 := s.next_y + 20
    let ny := if s.displayHeight ≤ ny1 + 20 then 20 else ny1
    ({ s with next_id := nid, next_x := nx, next_y := ny,
              order := id :: s.order,
              windows := fun h =>
                if h = id then some (Window.new x y width height title)
                else s.windows h,
              redraw := true }, Except.ok id)
  else
    ({ s with next_id := nid,
              order := id :: s.order,
              windows := fun h =>
                if h = id then some (Window.new x0 y0 width height title)
                else s.windows h,
              redraw := true }, Except.ok id)

/-- `Scheme::read` for `OrbitalScheme`: delegate to the window's `read`, or
fail with `EBADF` when the handle is not open.  The client buffer is
abstracted to its length. -/
def OrbitalScheme.read (s : OrbitalScheme) (id : Nat) (bufLen : Nat) :
    OrbitalScheme × Except SysError Nat :=
  match s.windows id with
  | some w =>
    let r := w.read bufLen
    ({ s with windows := fun h => if h = id then some r.1 else s.windows h },
     Except.ok r.2)
  | none => (s, Except.error SysError.EBADF)

/-- `Scheme::write` for `OrbitalScheme`: set `redraw` and delegate to the
window's `write`, or fail with `EBADF` when the handle is not open. -/
def OrbitalScheme.write (s : OrbitalScheme) (id : Nat) (buf : List Nat) :
    OrbitalScheme × Except SysError Nat :=
  match s.windows id with
  | some w =>
    let r := w.write buf
    ({ s with redraw := true,
              windows := fun h => if h = id then some r.1 else s.windows h },
     Except.ok r.2)
  | none => (s, Except.error SysError.EBADF)

/-- `Scheme::close` for `OrbitalScheme`: `order.retain(|&e| e != id)` runs
unconditionally; removing the window from `windows` decides success (result
`0`, `redraw` set) versus `EBADF`. -/
def OrbitalScheme.close (s : OrbitalScheme) (id : Nat) :
    OrbitalScheme × Except SysError Nat :=
  let order1 := s.order.filter (fun e => decide (e ≠ id))
  match s.windows id with
  | some _ =>
    ({ s with order := order1,
              windows := fun h => if h = id then none else s.windows h,
              redraw := true }, Except.ok 0)
  | none => ({ s with order := order1 }, Except.error SysError.EBADF)

/-- Result of the not-dragging pointer scan inside the event loop: the
(possibly) updated window map, the recorded focus candidate index, and
whether a title-bar drag was initiated. -/
structure ScanOut where
  wins : Nat → Option Window
  focus : Nat
  startDrag : Bool

/-- The front-to-back hit-test scan over `order` from the not-dragging
pointer branch of `event_loop` (`main.rs` lines 100-129): the first window
whose content rectangle contains the pointer receives the event translated
into window-local coordinates (recording its index as focus candidate on a
button press); the first window hit instead on its title bar receives a
quit event when the close button is hit, or starts a drag; either hit stops
the scan.  Handles absent from the window map are skipped, with the index
still advancing. -/
def mouseScan (wins : Nat → Option Window) (e : Event) :
    List Nat → Nat → ScanOut
  | [], _ => { wins := wins, focus := 0, startDrag := false }
  | id :: rest, i =>
    match wins id with
    | some w =>
      if w.contains (wrap32 e.a) (wrap32 e.b) then
        let we : Event := { e with a := wrap64 (e.a - w.x), b := wrap64 (e.b - w.y) }
        { wins := fun h => if h = id then some (w.event we) else wins h,
          focus := if 0 < e.c then i else 0, startDrag := false }
      else if w.title_contains (wrap32 e.a) (wrap32 e.b) then
        if 0 < e.c then
          if w.exit_contains (wrap32 e.a) (wrap32 e.b) then
            { wins := fun h => if h = id then some (w.event quitEvent) else wins h,
              focus := i, startDrag := false }
          else { wins := wins, focus := i, startDrag := true }
        else { wins := wins, focus := 0, startDrag := false }
      else mouseScan wins e rest (i + 1)
    | none => mouseScan wins e rest (i + 1)

/-- Specification-side characterization of the scan target: the first
handle in `order` (skipping handles absent from the window map) whose
window's content rectangle or title bar contains the point, together with
its scan index. -/
def firstHit (wins : Nat → Option Window) (ea eb : Int) :
    List Nat → Nat → Option (Nat × Nat)
  | [], _ => none
  | id :: rest, i =>
    match wins id with
    | some w =>
      if w.contains ea eb || w.title_contains ea eb then some (i, id)
      else firstHit wins ea eb rest (i + 1)
    | none => firstHit wins ea eb rest (i + 1)

/-- Processing of one raw display event by Phase A of `event_loop`
(`main.rs` lines 71-137): keyboard events go to the front of `order`;
mouse events update the cursor and set `redraw`, then either continue a
drag of the front window or run the hit-test scan followed by the focus
promotion (`order.remove(focus)` + `push_front`). -/
def OrbitalScheme.processEvent (s : OrbitalScheme) (e : Event) : OrbitalScheme :=
  if e.code = EVENT_KEY then
    match s.order.head? with
    | some id =>
      match s.windows id with
      | some w =>
        { s with windows := fun h => if h = id then some (w.event e) else s.windows h }
      | none => s
    | none => s
  else if e.code = EVENT_MOUSE then
    let cx := wrap32 e.a
    let cy := wrap32 e.b
    let s1 := { s with cursor_x := cx, cursor_y := cy, redraw := true }
    if s1.dragging then
      if 0 < e.c then
        match s1.order.head? with
        | some id =>
          match s1.windows id with
          | some w =>
            { s1 with
              windows := fun h =>
                if h = id then
                  some { w with x := wrap32 (w.x + wrap32 (cx - s1.drag_x)),
                                y := wrap32 (w.y + wrap32 (cy - s1.drag_y)) }
                else s1.windows h,
              drag_x := cx, drag_y := cy }
          | none => { s1 with dragging := false }
        | none => { s1 with dragging := false }
      else { s1 with dragging := false }
    else
      let out := mouseScan s1.windows e s1.order 0
      let s2 := { s1 with windows := out.wins,
                          dragging := out.startDrag,
                          drag_x := if out.startDrag then cx else s1.drag_x,
                          drag_y := if out.startDrag then cy else s1.drag_y }
      if 0 < out.focus then
        match s2.order.get? out.focus with
        | some id => { s2 with order := id :: s2.order.eraseIdx out.focus }
        | none => s2
      else s2
  else s

/-- One client request of the scheme protocol, as dispatched by Phase B
from a decoded packet. -/
inductive Request
  | rOpen (path : String) (flags mode : Nat)
  | rRead (id : Nat) (bufLen : Nat)
  | rWrite (id : Nat) (buf : List Nat)
  | rClose (id : Nat)

/-- Scheme dispatch of one packet (`self.handle(&mut packet)`): runs the
requested operation and yields the updated state plus the result slot. -/
def OrbitalScheme.handle (s : OrbitalScheme) (r : Request) :
    OrbitalScheme × Except SysError Nat :=
  match r with
  | .rOpen path flags mode => s.openWindow path flags mode
  | .rRead id n => s.read id n
  | .rWrite id buf => s.write id buf
  | .rClose id => s.close id

/-- Phase A — input drain: fold `processEvent` over the batch of display
events. -/
def OrbitalScheme.phaseA (s : OrbitalScheme) (events : List Event) : OrbitalScheme :=
  events.foldl OrbitalScheme.processEvent s

/-- Phase B — protocol drain: dispatch each pending packet in order. -/
def OrbitalScheme.phaseB (s : OrbitalScheme) (reqs : List Request) : OrbitalScheme :=
  reqs.foldl (fun t r => (t.handle r).1) s

/-- Phase C — composite & present (`main.rs` lines 145-159): gated by
`redraw`, which it clears; the drawing itself only touches the external
display, so the state change is the cleared flag.  The boolean reports
whether a composite/present happened. -/
def OrbitalScheme.phaseC (s : OrbitalScheme) : OrbitalScheme × Bool :=
  if s.redraw then ({ s with redraw := false }, true) else (s, false)

/-- One full iteration of the event loop: Phase A on the drained input
batch, Phase B on the pending requests, then Phase C. -/
def OrbitalScheme.iteration (s : OrbitalScheme) (events : List Event)
    (reqs : List Request) : OrbitalScheme × Bool :=
  ((s.phaseA events).phaseB reqs).phaseC

/-- One operation of a compositor history: either a raw display event or a
client request. -/
inductive Op
  | screenEvent (e : Event)
  | request (r : Request)

/-- Apply one operation to the state (result slots discarded). -/
def OrbitalScheme.step (s : OrbitalScheme) (op : Op) : OrbitalScheme :=
  match op with
  | .screenEvent e => s.processEvent e
  | .request r => (s.handle r).1

/-- Run a whole history of operations from a state. -/
def OrbitalScheme.run (s : OrbitalScheme) (ops : List Op) : OrbitalScheme :=
  ops.foldl OrbitalScheme.step s

/-- Number of `open` requests in a history. -/
def countOpens : List Op → Nat
  | [] => 0
  | Op.request (Request.rOpen _ _ _) :: rest => countOpens rest + 1
  | _ :: rest => countOpens rest

/-- Claim-side rejoin of path components with the delimiter re-inserted
between them (used to state the title rule of the open-path grammar). -/
def joinSlash : List String → String
  | [] => ""
  | [t] => t
  | t :: rest => t ++ "/" ++ joinSlash rest

theorem joinSlash_cons_append (rest : List String) (t r : String) :
    joinSlash ((t ++ "/" ++ r) :: rest) = t ++ "/" ++ joinSlash (r :: rest) := by
  cases rest with
  | nil => rfl
  | cons a l =>
    show (t ++ "/" ++ r) ++ "/" ++ joinSlash (a :: l)
        = t ++ "/" ++ (r ++ "/" ++ joinSlash (a :: l))
    simp [String.append_assoc]

theorem foldl_slash_eq_joinSlash (rest : List String) (t : String) :
    rest.foldl (fun acc part => acc ++ "/" ++ part) t = joinSlash (t :: rest) := by
  induction rest generalizing t with
  | nil => rfl
  | cons r rest ih =>
    show rest.foldl _ (t ++ "/" ++ r) = _
    rw [ih, joinSlash_cons_append]
    rfl

theorem rustJoinTitle_eq_joinSlash (l : List String) :
    rustJoinTitle l = joinSlash l := by
  cases l with
  | nil => rfl
  | cons t rest => exact foldl_slash_eq_joinSlash rest t

theorem list_getD_drop (l : List String) (i j : Nat) (d : String) :
    (l.drop i).getD j d = l.getD (i + j) d := by
  simp [List.getD, List.getElem?_drop]

/-- C2: for every path string (including the empty path), every flags value
and every mode value, `open` returns a success result — malformed or
missing path fields degrade to defaults instead of causing a failure. -/
theorem c2_open_never_fails (s : OrbitalScheme) (path : String) (flags mode : Nat) :
    ∃ id, (s.openWindow path flags mode).2 = Except.ok id := by
  unfold OrbitalScheme.openWindow
  dsimp only
  split
  · exact ⟨_, rfl⟩
  · exact ⟨_, rfl⟩

/-- C3: `read` and `write` return the bad-handle error exactly when the
handle is not a key of `windows`, and otherwise delegate to that window
(`write` additionally setting `redraw`); `close` succeeds with result `0`
exactly when the handle is a key of `windows` and returns the bad-handle
error otherwise. -/
theorem c3_bad_handle_errors (s : OrbitalScheme) (id : Nat) (len : Nat) (buf : List Nat) :
    ((s.read id len).2 = Except.error SysError.EBADF ↔ s.windows id = none)
    ∧ ((s.write id buf).2 = Except.error SysError.EBADF ↔ s.windows id = none)
    ∧ ((s.close id).2 = Except.ok 0 ↔ s.windows id ≠ none)
    ∧ ((s.close id).2 = Except.error SysError.EBADF ↔ s.windows id = none)
    ∧ ((s.read id len).2 = match s.windows id with
        | some w => Except.ok (w.read len).2
        | none => Except.error SysError.EBADF)
    ∧ ((s.read id len).1.windows id = match s.windows id with
        | some w => some (w.read len).1
        | none => none)
    ∧ ((s.write id buf).2 = match s.windows id with
        | some w => Except.ok (w.write buf).2
        | none => Except.error SysError.EBADF)
    ∧ ((s.write id buf).1.windows id = match s.windows id with
        | some w => some (w.write buf).1
        | none => none)
    ∧ ((s.write id buf).1.redraw = match s.windows id with
        | some _ => true
        | none => s.redraw) := by
  unfold OrbitalScheme.read OrbitalScheme.write OrbitalScheme.close
  cases hw : s.windows id <;> simp [hw]

/-- C10: for every handle, `read` leaves all compositor state unchanged
except the addressed window's event queue: `redraw` is not set, and
`order`, the key set of `windows`, the cursor, the drag state and the
placement/handle counters are untouched; the addressed window itself keeps
its geometry, title and content, only dropping the serialized events. -/
theorem c10_read_pure (s : OrbitalScheme) (id n : Nat) :
    ((s.read id n).1.redraw = s.redraw)
    ∧ ((s.read id n).1.order = s.order)
    ∧ ((s.read id n).1.cursor_x = s.cursor_x) ∧ ((s.read id n).1.cursor_y = s.cursor_y)
    ∧ ((s.read id n).1.dragging = s.dragging)
    ∧ ((s.read id n).1.drag_x = s.drag_x) ∧ ((s.read id n).1.drag_y = s.drag_y)
    ∧ ((s.read id n).1.next_id = s.next_id)
    ∧ ((s.read id n).1.next_x = s.next_x) ∧ ((s.read id n).1.next_y = s.next_y)
    ∧ (∀ h : Nat, (s.read id n).1.windows h =
        if h = id then Option.map (fun w => (w.read n).1) (s.windows h)
        else s.windows h)
    ∧ (∀ w : Window, (w.read n).1.x = w.x ∧ (w.read n).1.y = w.y
        ∧ (w.read n).1.width = w.width ∧ (w.read n).1.height = w.height
        ∧ (w.read n).1.title = w.title ∧ (w.read n).1.content = w.content
        ∧ (w.read n).1.events = w.events.drop (min (n / eventSize) w.events.length)) := by
  unfold OrbitalScheme.read
  cases hw : s.windows id with
  | none =>
    refine ⟨rfl, rfl, rfl, rfl, rfl, rfl, rfl, rfl, rfl, rfl, ?_, ?_⟩
    · intro h
      by_cases hh : h = id <;> simp [hh, hw]
    · intro w
      simp [Window.read]
  | some w0 =>
    refine ⟨rfl, rfl, rfl, rfl, rfl, rfl, rfl, rfl, rfl, rfl, ?_, ?_⟩
    · intro h
      by_cases hh : h = id <;> simp [hh, hw]
    · intro w
      simp [Window.read]

/-- C5 counterexample: the claim says the first delimiter-separated
component of the path is `x`, so for the path `"9/8/7/6/t"` the created
window would sit at `x = 9`; `open` in fact skips the first component and
stores `x = 8`. -/
theorem c5_counterexample :
    Option.map Window.x
        (((OrbitalScheme.new 800 600).openWindow "9/8/7/6/t" 0 0).1.windows 1)
      = some 8 ∧ (8 : Int) ≠ 9 := by
  constructor
  · decide
  · decide

/-- C5 amended: for every path string, `open` parses it per the grammar
with the first delimiter-separated component skipped: the second component
is `x`, the third `y`, the fourth `width`, the fifth `height`, each
unparseable or missing numeric component defaulting to `0`, and all
components after the fifth rejoined with the delimiter re-inserted to form
the title (`x`/`y` being replaced by the cascade position when both parse
negative). -/
theorem c5_path_grammar_amended (s : OrbitalScheme) (path : String) (flags mode : Nat) :
    (s.openWindow path flags mode).1.windows (usizeOfIsize s.next_id) =
      (let parts := rustSplit '/' path
       let x0 := (parseI32 (parts.getD 1 "")).getD 0
       let y0 := (parseI32 (parts.getD 2 "")).getD 0
       some (Window.new
         (if x0 < 0 ∧ y0 < 0 then s.next_x else x0)
         (if x0 < 0 ∧ y0 < 0 then s.next_y else y0)
         ((parseI32 (parts.getD 3 "")).getD 0)
         ((parseI32 (parts.getD 4 "")).getD 0)
         (joinSlash (parts.drop 5)))) := by
  unfold OrbitalScheme.openWindow
  simp only [list_getD_drop, List.drop_drop, rustJoinTitle_eq_joinSlash]
  norm_num
  split
  · simp
  · simp

theorem wrap64_eq_self (n : Int) (h1 : -i64Half ≤ n) (h2 : n < i64Half) :
    wrap64 n = n := by
  unfold wrap64
  have h3 : 0 ≤ n + i64Half := by unfold i64Half at *; omega
  have h4 : n + i64Half < i64Mod := by unfold i64Half i64Mod at *; omega
  rw [Int.emod_eq_of_lt h3 h4]
  omega

theorem wrap64_half : wrap64 i64Half = -i64Half := by
  unfold wrap64
  have : i64Half + i64Half = i64Mod := by unfold i64Half i64Mod; omega
  rw [this, Int.emod_self]
  omega

theorem usizeOfIsize_eq_toNat (n : Int) (h1 : 0 ≤ n) (h2 : n < i64Mod) :
    usizeOfIsize n = n.toNat := by
  unfold usizeOfIsize
  rw [Int.emod_eq_of_lt h1 h2]

theorem openWindow_proj (s : OrbitalScheme) (p : String) (fl md : Nat) :
    (s.openWindow p fl md).2 = Except.ok (usizeOfIsize s.next_id)
    ∧ (s.openWindow p fl md).1.order = usizeOfIsize s.next_id :: s.order
    ∧ (s.openWindow p fl md).1.next_id
        = (if wrapIsize (s.next_id + 1) < 0 then 1 else wrapIsize (s.next_id + 1))
    ∧ (s.openWindow p fl md).1.redraw = true
    ∧ (∀ hh : Nat, ((s.openWindow p fl md).1.windows hh).isSome
        = (decide (hh = usizeOfIsize s.next_id) || (s.windows hh).isSome))
    ∧ (s.openWindow p fl md).1.dragging = s.dragging := by
  unfold OrbitalScheme.openWindow
  dsimp only
  split
  · refine ⟨rfl, rfl, rfl, rfl, ?_, rfl⟩
    intro hh
    by_cases hh2 : hh = usizeOfIsize s.next_id <;> simp [hh2]
  · refine ⟨rfl, rfl, rfl, rfl, ?_, rfl⟩
    intro hh
    by_cases hh2 : hh = usizeOfIsize s.next_id <;> simp [hh2]

theorem open_next_id_no_wrap (s : OrbitalScheme) (p : String) (fl md : Nat)
    (h1 : 1 ≤ s.next_id) (h2 : s.next_id ≤ i64Half - 2) :
    (s.openWindow p fl md).1.next_id = s.next_id + 1
    ∧ (s.openWindow p fl md).2 = Except.ok s.next_id.toNat := by
  have hw : wrapIsize (s.next_id + 1) = s.next_id + 1 := by
    unfold wrapIsize
    exact wrap64_eq_self _ (by unfold i64Half at *; omega) (by unfold i64Half at *; omega)
  have hu : usizeOfIsize s.next_id = s.next_id.toNat :=
    usizeOfIsize_eq_toNat _ (by omega) (by unfold i64Half i64Mod at *; omega)
  obtain ⟨hres, -, hnid, -⟩ := openWindow_proj s p fl md
  refine ⟨?_, ?_⟩
  · rw [hnid, hw, if_neg (by omega)]
  · rw [hres, hu]

theorem open_next_id_wrap (s : OrbitalScheme) (p : String) (fl md : Nat)
    (h1 : s.next_id = i64Half - 1) :
    (s.openWindow p fl md).1.next_id = 1
    ∧ (s.openWindow p fl md).2 = Except.ok s.next_id.toNat := by
  have hw : wrapIsize (s.next_id + 1) = -i64Half := by
    unfold wrapIsize
    rw [h1]
    have : i64Half - 1 + 1 = i64Half := by omega
    rw [this, wrap64_half]
  have hu : usizeOfIsize s.next_id = s.next_id.toNat :=
    usizeOfIsize_eq_toNat _ (by unfold i64Half at *; omega)
      (by unfold i64Half i64Mod at *; omega)
  obtain ⟨hres, -, hnid, -⟩ := openWindow_proj s p fl md
  refine ⟨?_, ?_⟩
  · rw [hnid, hw, if_pos (by unfold i64Half; omega)]
  · rw [hres, hu]

/-- The handles returned by a sequence of consecutive `open` calls with the
given arguments (failing calls — which cannot happen — would be skipped). -/
def openedIds (s : OrbitalScheme) : List (String × Nat × Nat) → List Nat
  | [] => []
  | (p, fl, md) :: rest =>
    match s.openWindow p fl md with
    | (s', Except.ok id) => id :: openedIds s' rest
    | (s', Except.error _) => openedIds s' rest

theorem openedIds_closed_form (ps : List (String × Nat × Nat)) (s : OrbitalScheme)
    (h1 : 1 ≤ s.next_id) (h2 : s.next_id + ps.length ≤ i64Half - 1) :
    openedIds s ps = (List.range ps.length).map (fun j => s.next_id.toNat + j) := by
  induction ps generalizing s with
  | nil => simp [openedIds]
  | cons hd rest ih =>
    obtain ⟨p, fl, md⟩ := hd
    have hcard : (rest.length : Int) + 1 = ((p, fl, md) :: rest : List _).length := by
      simp
    have h2' : s.next_id ≤ i64Half - 2 := by
      have := h2
      simp only [List.length_cons] at this
      push_cast at this
      omega
    obtain ⟨hnid, hres⟩ := open_next_id_no_wrap s p fl md h1 h2'
    have hnext1 : 1 ≤ (s.openWindow p fl md).1.next_id := by omega
    have hnext2 : (s.openWindow p fl md).1.next_id + rest.length ≤ i64Half - 1 := by
      rw [hnid]
      have := h2
      simp only [List.length_cons] at this
      push_cast at this ⊢
      omega
    have ihx := ih (s.openWindow p fl md).1 hnext1 hnext2
    unfold openedIds
    have hsplit : s.openWindow p fl md
        = ((s.openWindow p fl md).1, Except.ok s.next_id.toNat) := by
      rw [← hres]
    rw [hsplit]
    dsimp only
    rw [ihx, hnid]
    have htn : (s.next_id + 1).toNat = s.next_id.toNat + 1 := by omega
    rw [htn]
    simp only [List.length_cons, List.range_succ_eq_map, List.map_cons, List.map_map]
    refine congrArg₂ _ (by omega) ?_
    apply List.map_congr_left
    intro j hj
    simp [Function.comp]
    omega

/-- C4: for every sequence of `open` calls without intervening counter
overflow, the returned handles are pairwise distinct, positive and strictly
increasing; on overflow the handle counter wraps back to `1`; an `open`
never yields handle `0`. -/
theorem c4_handle_uniqueness (s : OrbitalScheme) (ps : List (String × Nat × Nat))
    (h1 : 1 ≤ s.next_id) (h2 : s.next_id + ps.length ≤ i64Half - 1) :
    (openedIds s ps).Pairwise (· < ·)
    ∧ (openedIds s ps).Nodup
    ∧ (∀ i ∈ openedIds s ps, 0 < i)
    ∧ (∀ (t : OrbitalScheme) (p : String) (fl md : Nat),
        t.next_id = i64Half - 1 → (t.openWindow p fl md).1.next_id = 1)
    ∧ (∀ (t : OrbitalScheme) (p : String) (fl md : Nat),
        1 ≤ t.next_id → t.next_id < i64Half →
        (t.openWindow p fl md).2 ≠ Except.ok 0) := by
  have hcf := openedIds_closed_form ps s h1 h2
  have hpw : (openedIds s ps).Pairwise (· < ·) := by
    rw [hcf]
    refine List.Pairwise.map _ ?_ (List.pairwise_lt_range _)
    intro a b hab
    omega
  refine ⟨hpw, hpw.imp ne_of_lt, ?_, ?_, ?_⟩
  · rw [hcf]
    intro i hi
    simp only [List.mem_map, List.mem_range] at hi
    obtain ⟨j, hj, rfl⟩ := hi
    omega
  · intro t p fl md ht
    exact (open_next_id_wrap t p fl md ht).1
  · intro t p fl md ht1 ht2 hcontra
    have hres : (t.openWindow p fl md).2 = Except.ok t.next_id.toNat := by
      obtain ⟨hres0, -⟩ := openWindow_proj t p fl md
      rw [hres0, usizeOfIsize_eq_toNat _ (by omega)
        (by unfold i64Half i64Mod at *; omega)]
    rw [hres] at hcontra
    simp only [Except.ok.injEq] at hcontra
    omega

/-- Witness for `c4_handle_uniqueness`: three opens from the fresh state. -/
theorem c4_handle_uniqueness_witness :
    ((1:Int) ≤ (OrbitalScheme.new 800 600).next_id
      ∧ (OrbitalScheme.new 800 600).next_id
          + ([("a",0,0),("b",0,0),("c",0,0)] : List (String × Nat × Nat)).length
        ≤ i64Half - 1)
    ∧ (openedIds (OrbitalScheme.new 800 600)
        [("a",0,0),("b",0,0),("c",0,0)]).Pairwise (· < ·) :=
  ⟨⟨by decide, by decide⟩,
   (c4_handle_uniqueness (OrbitalScheme.new 800 600)
     [("a",0,0),("b",0,0),("c",0,0)] (by decide) (by decide)).1⟩

/-- The `x` component `open` parses: first component after the skipped
one, defaulting to 0. -/
def parsedX (path : String) : Int :=
  (parseI32 (((rustSplit '/' path).drop 1).getD 0 "")).getD 0

/-- The `y` component `open` parses. -/
def parsedY (path : String) : Int :=
  (parseI32 (((rustSplit '/' path).drop 1).getD 1 "")).getD 0

/-- The `width` component `open` parses. -/
def parsedW (path : String) : Int :=
  (parseI32 (((rustSplit '/' path).drop 1).getD 2 "")).getD 0

/-- The `height` component `open` parses. -/
def parsedH (path : String) : Int :=
  (parseI32 (((rustSplit '/' path).drop 1).getD 3 "")).getD 0

/-- The title `open` builds from the remaining components. -/
def parsedTitle (path : String) : String :=
  rustJoinTitle (((rustSplit '/' path).drop 1).drop 4)

theorem open_place (s : OrbitalScheme) (p : String) (fl md : Nat) :
    ((parsedX p < 0 ∧ parsedY p < 0) →
      (s.openWindow p fl md).1.windows (usizeOfIsize s.next_id)
          = some (Window.new s.next_x s.next_y (parsedW p) (parsedH p) (parsedTitle p))
      ∧ (s.openWindow p fl md).1.next_x
          = (if s.displayWidth ≤ s.next_x + 20 + 20 then 20 else s.next_x + 20)
      ∧ (s.openWindow p fl md).1.next_y
          = (if s.displayHeight ≤ s.next_y + 20 + 20 then 20 else s.next_y + 20))
    ∧ (¬(parsedX p < 0 ∧ parsedY p < 0) →
      (s.openWindow p fl md).1.windows (usizeOfIsize s.next_id)
          = some (Window.new (parsedX p) (parsedY p) (parsedW p) (parsedH p) (parsedTitle p))
      ∧ (s.openWindow p fl md).1.next_x = s.next_x
      ∧ (s.openWindow p fl md).1.next_y = s.next_y) := by
  unfold parsedX parsedY parsedW parsedH parsedTitle
  unfold OrbitalScheme.openWindow
  dsimp only
  split
  · refine ⟨fun _ => ⟨?_, rfl, rfl⟩, fun hn => absurd (by assumption) hn⟩
    simp
  · refine ⟨fun hc => absurd hc (by assumption), fun _ => ⟨?_, rfl, rfl⟩⟩
    simp

theorem open_preserves_misc (s : OrbitalScheme) (p : String) (fl md : Nat) :
    (s.openWindow p fl md).1.displayWidth = s.displayWidth
    ∧ (s.openWindow p fl md).1.displayHeight = s.displayHeight
    ∧ (s.openWindow p fl md).1.cursor_x = s.cursor_x
    ∧ (s.openWindow p fl md).1.cursor_y = s.cursor_y := by
  unfold OrbitalScheme.openWindow
  dsimp only
  split
  · exact ⟨rfl, rfl, rfl, rfl⟩
  · exact ⟨rfl, rfl, rfl, rfl⟩

/-- C6: when the parsed `x` and `y` are both negative, `open` places the
window at the current `(next_x, next_y)` and advances each counter by the
step of 20, wrapping back to 20 when the advanced value plus the step
would reach or exceed the display dimension; when not both are negative,
the parsed coordinates are used unchanged and the counters do not advance;
three consecutive auto-placed opens (before any wrap) yield strictly
increasing positions, each offset by the step. -/
theorem c6_auto_placement (s : OrbitalScheme) :
    (∀ (p : String) (fl md : Nat), parsedX p < 0 → parsedY p < 0 →
      (s.openWindow p fl md).1.windows (usizeOfIsize s.next_id)
          = some (Window.new s.next_x s.next_y (parsedW p) (parsedH p) (parsedTitle p))
      ∧ (s.openWindow p fl md).1.next_x
          = (if s.displayWidth ≤ s.next_x + 20 + 20 then 20 else s.next_x + 20)
      ∧ (s.openWindow p fl md).1.next_y
          = (if s.displayHeight ≤ s.next_y + 20 + 20 then 20 else s.next_y + 20))
    ∧ (∀ (p : String) (fl md : Nat), ¬(parsedX p < 0 ∧ parsedY p < 0) →
      (s.openWindow p fl md).1.windows (usizeOfIsize s.next_id)
          = some (Window.new (parsedX p) (parsedY p) (parsedW p) (parsedH p) (parsedTitle p))
      ∧ (s.openWindow p fl md).1.next_x = s.next_x
      ∧ (s.openWindow p fl md).1.next_y = s.next_y)
    ∧ (∀ (p1 p2 p3 : String) (fl1 md1 fl2 md2 fl3 md3 : Nat),
        parsedX p1 < 0 → parsedY p1 < 0 →
        parsedX p2 < 0 → parsedY p2 < 0 →
        parsedX p3 < 0 → parsedY p3 < 0 →
        s.next_x + 60 < s.displayWidth → s.next_y + 60 < s.displayHeight →
        ∃ w1 w2 w3 : Window,
          (s.openWindow p1 fl1 md1).1.windows (usizeOfIsize s.next_id) = some w1
          ∧ ((s.openWindow p1 fl1 md1).1.openWindow p2 fl2 md2).1.windows
              (usizeOfIsize (s.openWindow p1 fl1 md1).1.next_id) = some w2
          ∧ (((s.openWindow p1 fl1 md1).1.openWindow p2 fl2 md2).1.openWindow
              p3 fl3 md3).1.windows
              (usizeOfIsize ((s.openWindow p1 fl1 md1).1.openWindow p2 fl2 md2).1.next_id)
            = some w3
          ∧ w1.x = s.next_x ∧ w1.y = s.next_y
          ∧ w2.x = s.next_x + 20 ∧ w2.y = s.next_y + 20
          ∧ w3.x = s.next_x + 40 ∧ w3.y = s.next_y + 40
          ∧ w1.x < w2.x ∧ w2.x < w3.x ∧ w1.y < w2.y ∧ w2.y < w3.y
          ∧ w2.x - w1.x = 20 ∧ w3.x - w2.x = 20
          ∧ w2.y - w1.y = 20 ∧ w3.y - w2.y = 20) := by
  refine ⟨?_, ?_, ?_⟩
  · intro p fl md hx hy
    exact (open_place s p fl md).1 ⟨hx, hy⟩
  · intro p fl md hn
    exact (open_place s p fl md).2 hn
  · intro p1 p2 p3 fl1 md1 fl2 md2 fl3 md3 hx1 hy1 hx2 hy2 hx3 hy3 hbx hby
    obtain ⟨hw1, hnx1, hny1⟩ := (open_place s p1 fl1 md1).1 ⟨hx1, hy1⟩
    obtain ⟨hdw1, hdh1, -⟩ := open_preserves_misc s p1 fl1 md1
    set s1 := (s.openWindow p1 fl1 md1).1 with hs1
    have hnx1v : s1.next_x = s.next_x + 20 := by
      rw [hnx1, if_neg (by omega)]
    have hny1v : s1.next_y = s.next_y + 20 := by
      rw [hny1, if_neg (by omega)]
    obtain ⟨hw2, hnx2, hny2⟩ := (open_place s1 p2 fl2 md2).1 ⟨hx2, hy2⟩
    obtain ⟨hdw2, hdh2, -⟩ := open_preserves_misc s1 p2 fl2 md2
    set s2 := (s1.openWindow p2 fl2 md2).1 with hs2
    have hnx2v : s2.next_x = s.next_x + 40 := by
      rw [hnx2, hnx1v, hdw1, if_neg (by omega)]
      omega
    have hny2v : s2.next_y = s.next_y + 40 := by
      rw [hny2, hny1v, hdh1, if_neg (by omega)]
      omega
    obtain ⟨hw3, -, -⟩ := (open_place s2 p3 fl3 md3).1 ⟨hx3, hy3⟩
    refine ⟨Window.new s.next_x s.next_y (parsedW p1) (parsedH p1) (parsedTitle p1),
            Window.new (s.next_x + 20) (s.next_y + 20) (parsedW p2) (parsedH p2) (parsedTitle p2),
            Window.new (s.next_x + 40) (s.next_y + 40) (parsedW p3) (parsedH p3) (parsedTitle p3),
            hw1, ?_, ?_, ?_⟩
    · rw [hw2, hnx1v, hny1v]
    · rw [hw3, hnx2v, hny2v]
    · unfold Window.new
      dsimp only
      refine ⟨rfl, rfl, rfl, rfl, rfl, rfl, by omega, by omega, by omega, by omega,
        by omega, by omega, by omega, by omega⟩

/-- Witness for `c6_auto_placement`: three auto-placed opens on an 800x600
display from fresh counters at (20,20). -/
theorem c6_auto_placement_witness :
    (parsedX "o/-1/-1" < 0 ∧ parsedY "o/-1/-1" < 0
      ∧ (OrbitalScheme.new 800 600).next_x + 60 < (OrbitalScheme.new 800 600).displayWidth
      ∧ (OrbitalScheme.new 800 600).next_y + 60 < (OrbitalScheme.new 800 600).displayHeight)
    ∧ (∃ w1 w2 w3 : Window,
        ((OrbitalScheme.new 800 600).openWindow "o/-1/-1" 0 0).1.windows
            (usizeOfIsize (OrbitalScheme.new 800 600).next_id) = some w1
        ∧ (((OrbitalScheme.new 800 600).openWindow "o/-1/-1" 0 0).1.openWindow
              "o/-1/-1" 0 0).1.windows
            (usizeOfIsize ((OrbitalScheme.new 800 600).openWindow "o/-1/-1" 0 0).1.next_id)
          = some w2
        ∧ ((((OrbitalScheme.new 800 600).openWindow "o/-1/-1" 0 0).1.openWindow
              "o/-1/-1" 0 0).1.openWindow "o/-1/-1" 0 0).1.windows
            (usizeOfIsize (((OrbitalScheme.new 800 600).openWindow "o/-1/-1" 0 0).1.openWindow
              "o/-1/-1" 0 0).1.next_id)
          = some w3
        ∧ w1.x = (OrbitalScheme.new 800 600).next_x ∧ w1.y = (OrbitalScheme.new 800 600).next_y
        ∧ w2.x = (OrbitalScheme.new 800 600).next_x + 20
        ∧ w2.y = (OrbitalScheme.new 800 600).next_y + 20
        ∧ w3.x = (OrbitalScheme.new 800 600).next_x + 40
        ∧ w3.y = (OrbitalScheme.new 800 600).next_y + 40
        ∧ w1.x < w2.x ∧ w2.x < w3.x ∧ w1.y < w2.y ∧ w2.y < w3.y
        ∧ w2.x - w1.x = 20 ∧ w3.x - w2.x = 20
        ∧ w2.y - w1.y = 20 ∧ w3.y - w2.y = 20) :=
  ⟨⟨by decide, by decide, by decide, by decide⟩,
   (c6_auto_placement (OrbitalScheme.new 800 600)).2.2 "o/-1/-1" "o/-1/-1" "o/-1/-1"
     0 0 0 0 0 0 (by decide) (by decide) (by decide) (by decide) (by decide) (by decide)
     (by decide) (by decide)⟩

theorem mouseScan_wins_isSome (e : Event) (l : List Nat) :
    ∀ (wins : Nat → Option Window) (i h : Nat),
    ((mouseScan wins e l i).wins h).isSome = (wins h).isSome := by
  induction l with
  | nil => intro wins i h; rfl
  | cons id rest ih =>
    intro wins i h
    unfold mouseScan
    cases hw : wins id with
    | none => exact ih wins (i + 1) h
    | some w =>
      by_cases hc : w.contains (wrap32 e.a) (wrap32 e.b)
      · simp only [hc, if_true]
        by_cases hh : h = id <;> simp [hh, hw]
      · simp only [hc, Bool.false_eq_true, if_false]
        by_cases ht : w.title_contains (wrap32 e.a) (wrap32 e.b)
        · simp only [ht, if_true]
          by_cases hp : 0 < e.c
          · simp only [hp, if_true]
            by_cases hx : w.exit_contains (wrap32 e.a) (wrap32 e.b)
            · simp only [hx, if_true]
              by_cases hh : h = id <;> simp [hh, hw]
            · simp only [hx, Bool.false_eq_true, if_false]
          · simp only [hp, if_false]
        · simp only [ht, Bool.false_eq_true, if_false]
          exact ih wins (i + 1) h

theorem mouseScan_of_firstHit_none (e : Event) (l : List Nat) :
    ∀ (wins : Nat → Option Window) (i : Nat),
    firstHit wins (wrap32 e.a) (wrap32 e.b) l i = none →
    mouseScan wins e l i = { wins := wins, focus := 0, startDrag := false } := by
  induction l with
  | nil => intro wins i _; rfl
  | cons id rest ih =>
    intro wins i hfh
    unfold firstHit at hfh
    unfold mouseScan
    cases hw : wins id with
    | none =>
      rw [hw] at hfh
      exact ih wins (i + 1) hfh
    | some w =>
      rw [hw] at hfh
      dsimp only at hfh ⊢
      by_cases hor : (w.contains (wrap32 e.a) (wrap32 e.b)
          || w.title_contains (wrap32 e.a) (wrap32 e.b)) = true
      · rw [if_pos hor] at hfh
        exact absurd hfh (by simp)
      · rw [if_neg hor] at hfh
        have hc : ¬ w.contains (wrap32 e.a) (wrap32 e.b) = true := by
          intro hx
          exact hor (by simp [hx])
        have ht : ¬ w.title_contains (wrap32 e.a) (wrap32 e.b) = true := by
          intro hx
          exact hor (by simp [hx])
        simp only [hc, ht, Bool.false_eq_true, if_false]
        exact ih wins (i + 1) hfh

theorem mouseScan_of_firstHit_some (e : Event) (l : List Nat) :
    ∀ (wins : Nat → Option Window) (i j hd : Nat),
    firstHit wins (wrap32 e.a) (wrap32 e.b) l i = some (j, hd) →
    (mouseScan wins e l i).focus = (if 0 < e.c then j else 0)
    ∧ (∀ h2 : Nat, h2 ≠ hd → (mouseScan wins e l i).wins h2 = wins h2)
    ∧ (∀ w : Window, wins hd = some w → w.contains (wrap32 e.a) (wrap32 e.b) = true →
        (mouseScan wins e l i).wins hd
          = some (w.event { e with a := wrap64 (e.a - w.x), b := wrap64 (e.b - w.y) }))
    ∧ i ≤ j ∧ l.get? (j - i) = some hd := by
  induction l with
  | nil => intro wins i j hd hfh; exact absurd hfh (by simp [firstHit])
  | cons id rest ih =>
    intro wins i j hd hfh
    unfold firstHit at hfh
    unfold mouseScan
    cases hw : wins id with
    | none =>
      rw [hw] at hfh
      dsimp only at hfh ⊢
      obtain ⟨h1, h2, h3, h4, h5⟩ := ih wins (i + 1) j hd hfh
      refine ⟨h1, h2, h3, by omega, ?_⟩
      have hji : j - i = (j - (i + 1)) + 1 := by omega
      rw [hji]
      simpa using h5
    | some w =>
      rw [hw] at hfh
      dsimp only at hfh ⊢
      by_cases hor : (w.contains (wrap32 e.a) (wrap32 e.b)
          || w.title_contains (wrap32 e.a) (wrap32 e.b)) = true
      · rw [if_pos hor] at hfh
        simp only [Option.some.injEq, Prod.mk.injEq] at hfh
        obtain ⟨hji, hhd⟩ := hfh
        subst hji
        subst hhd
        by_cases hc : w.contains (wrap32 e.a) (wrap32 e.b) = true
        · rw [if_pos hc]
          dsimp only
          refine ⟨rfl, ?_, ?_, le_refl i, by simp⟩
          · intro h2 hne
            rw [if_neg hne]
          · intro w2 hw2 hc2
            rw [hw] at hw2
            simp only [Option.some.injEq] at hw2
            subst hw2
            rw [if_pos rfl]
        · have ht : w.title_contains (wrap32 e.a) (wrap32 e.b) = true := by
            have hor2 := hor
            simp only [Bool.or_eq_true] at hor2
            rcases hor2 with h | h
            · exact absurd h hc
            · exact h
          rw [if_neg hc, if_pos ht]
          by_cases hp : 0 < e.c
          · rw [if_pos hp]
            by_cases hx : w.exit_contains (wrap32 e.a) (wrap32 e.b) = true
            · rw [if_pos hx]
              dsimp only
              refine ⟨by rw [if_pos hp], ?_, ?_, le_refl i, by simp⟩
              · intro h2 hne
                rw [if_neg hne]
              · intro w2 hw2 hc2
                rw [hw] at hw2
                simp only [Option.some.injEq] at hw2
                subst hw2
                exact absurd hc2 hc
            · rw [if_neg hx]
              dsimp only
              refine ⟨by rw [if_pos hp], fun _ _ => rfl, ?_, le_refl i, by simp⟩
              intro w2 hw2 hc2
              rw [hw] at hw2
              simp only [Option.some.injEq] at hw2
              subst hw2
              exact absurd hc2 hc
          · rw [if_neg hp]
            dsimp only
            refine ⟨by rw [if_neg hp], fun _ _ => rfl, ?_, le_refl i, by simp⟩
            intro w2 hw2 hc2
            rw [hw] at hw2
            simp only [Option.some.injEq] at hw2
            subst hw2
            exact absurd hc2 hc
      · rw [if_neg hor] at hfh
        have hc : ¬ w.contains (wrap32 e.a) (wrap32 e.b) = true := by
          intro hx
          exact hor (by simp [hx])
        have ht : ¬ w.title_contains (wrap32 e.a) (wrap32 e.b) = true := by
          intro hx
          exact hor (by simp [hx])
        rw [if_neg hc, if_neg ht]
        obtain ⟨h1, h2, h3, h4, h5⟩ := ih wins (i + 1) j hd hfh
        refine ⟨h1, h2, h3, by omega, ?_⟩
        have hji : j - i = (j - (i + 1)) + 1 := by omega
        rw [hji]
        simpa using h5

theorem perm_cons_eraseIdx (l : List Nat) :
    ∀ (j a : Nat), l.get? j = some a → (a :: l.eraseIdx j).Perm l := by
  induction l with
  | nil => intro j a h; simp at h
  | cons b rest ih =>
    intro j a h
    cases j with
    | zero =>
      simp only [List.get?] at h
      injection h with h
      subst h
      exact List.Perm.refl _
    | succ j0 =>
      simp only [List.get?] at h
      have hih := ih j0 a h
      show (a :: b :: rest.eraseIdx j0).Perm (b :: rest)
      exact (List.Perm.swap b a _).trans (hih.cons b)

theorem processEvent_nodrag_parts (s : OrbitalScheme) (e : Event)
    (hm : e.code = EVENT_MOUSE) (hd : s.dragging = false) :
    (s.processEvent e).windows = (mouseScan s.windows e s.order 0).wins
    ∧ (s.processEvent e).order =
        (if 0 < (mouseScan s.windows e s.order 0).focus then
          match s.order.get? (mouseScan s.windows e s.order 0).focus with
          | some id => id :: s.order.eraseIdx (mouseScan s.windows e s.order 0).focus
          | none => s.order
        else s.order)
    ∧ (s.processEvent e).redraw = true
    ∧ (s.processEvent e).next_id = s.next_id
    ∧ (s.processEvent e).next_x = s.next_x
    ∧ (s.processEvent e).next_y = s.next_y := by
  unfold OrbitalScheme.processEvent
  have hne : ¬ (e.code = EVENT_KEY) := by
    rw [hm]; unfold EVENT_MOUSE EVENT_KEY; omega
  rw [if_neg hne, if_pos hm]
  dsimp only
  rw [hd]
  simp only [Bool.false_eq_true, if_false]
  by_cases hf : 0 < (mouseScan s.windows e s.order 0).focus
  · rw [if_pos hf, if_pos hf]
    cases hg : s.order.get? (mouseScan s.windows e s.order 0).focus with
    | some id => exact ⟨rfl, rfl, rfl, rfl, rfl, rfl⟩
    | none => exact ⟨rfl, rfl, rfl, rfl, rfl, rfl⟩
  · rw [if_neg hf, if_neg hf]
    exact ⟨rfl, rfl, rfl, rfl, rfl, rfl⟩

theorem processEvent_click_order (s : OrbitalScheme) (e : Event)
    (hdrag : s.dragging = false) (hm : e.code = EVENT_MOUSE) (hp : 0 < e.c)
    (i hd : Nat)
    (hhit : firstHit s.windows (wrap32 e.a) (wrap32 e.b) s.order 0 = some (i, hd)) :
    (s.processEvent e).order.head? = some hd
    ∧ (s.processEvent e).order.Perm s.order
    ∧ (0 < i → (s.processEvent e).order = hd :: s.order.eraseIdx i)
    ∧ (i = 0 → (s.processEvent e).order = s.order) := by
  obtain ⟨-, hord, -⟩ := processEvent_nodrag_parts s e hm hdrag
  obtain ⟨hfoc, -, -, -, hget0⟩ :=
    mouseScan_of_firstHit_some e s.order s.windows 0 i hd hhit
  rw [if_pos hp] at hfoc
  have hget : s.order.get? i = some hd := by simpa using hget0
  by_cases hi : 0 < i
  · rw [hfoc, if_pos hi, hget] at hord
    dsimp only at hord
    rw [hord]
    refine ⟨rfl, perm_cons_eraseIdx s.order i hd hget, fun _ => rfl, fun hz => ?_⟩
    omega
  · have hiz : i = 0 := by omega
    rw [hfoc, if_neg hi] at hord
    rw [hord]
    subst hiz
    refine ⟨?_, List.Perm.refl _, fun hgt => absurd hgt hi, fun _ => rfl⟩
    rw [← List.get?_zero]
    exact hget

/-- C7: for a pointer event processed while not dragging, at most one
window receives the event; the scan stops at the first window (in `order`
front-to-back) whose content rectangle or title bar contains the pointer —
occluded windows behind it are untouched; a content hit is delivered with
coordinates translated by subtracting the window's `x` and `y` (exactly,
when the difference fits in 64 bits). -/
theorem c7_hit_test_occlusion (s : OrbitalScheme) (e : Event)
    (hdrag : s.dragging = false) (hm : e.code = EVENT_MOUSE) :
    (∀ h1 h2 : Nat, (s.processEvent e).windows h1 ≠ s.windows h1 →
        (s.processEvent e).windows h2 ≠ s.windows h2 → h1 = h2)
    ∧ (∀ (j hd : Nat),
        firstHit s.windows (wrap32 e.a) (wrap32 e.b) s.order 0 = some (j, hd) →
        ∀ h2 : Nat, h2 ≠ hd → (s.processEvent e).windows h2 = s.windows h2)
    ∧ (firstHit s.windows (wrap32 e.a) (wrap32 e.b) s.order 0 = none →
        ∀ h2 : Nat, (s.processEvent e).windows h2 = s.windows h2)
    ∧ (∀ (j hd : Nat) (w : Window),
        firstHit s.windows (wrap32 e.a) (wrap32 e.b) s.order 0 = some (j, hd) →
        s.windows hd = some w → w.contains (wrap32 e.a) (wrap32 e.b) = true →
        (s.processEvent e).windows hd
          = some (w.event { e with a := wrap64 (e.a - w.x), b := wrap64 (e.b - w.y) })
        ∧ (-i64Half ≤ e.a - w.x → e.a - w.x < i64Half →
           -i64Half ≤ e.b - w.y → e.b - w.y < i64Half →
           (s.processEvent e).windows hd
             = some (w.event { e with a := e.a - w.x, b := e.b - w.y }))) := by
  obtain ⟨hwin, -, -⟩ := processEvent_nodrag_parts s e hm hdrag
  have hnone : firstHit s.windows (wrap32 e.a) (wrap32 e.b) s.order 0 = none →
      ∀ h2 : Nat, (s.processEvent e).windows h2 = s.windows h2 := by
    intro hfh h2
    rw [hwin, mouseScan_of_firstHit_none e s.order s.windows 0 hfh]
  have hsome : ∀ (j hd : Nat),
      firstHit s.windows (wrap32 e.a) (wrap32 e.b) s.order 0 = some (j, hd) →
      ∀ h2 : Nat, h2 ≠ hd → (s.processEvent e).windows h2 = s.windows h2 := by
    intro j hd hfh h2 hne
    obtain ⟨-, hunch, -, -, -⟩ :=
      mouseScan_of_firstHit_some e s.order s.windows 0 j hd hfh
    rw [hwin]
    exact hunch h2 hne
  refine ⟨?_, hsome, hnone, ?_⟩
  · intro h1 h2 hc1 hc2
    cases hfh : firstHit s.windows (wrap32 e.a) (wrap32 e.b) s.order 0 with
    | none => exact absurd (hnone hfh h1) hc1
    | some pr =>
      obtain ⟨j, hd⟩ := pr
      by_cases he1 : h1 = hd
      · by_cases he2 : h2 = hd
        · rw [he1, he2]
        · exact absurd (hsome j hd hfh h2 he2) hc2
      · exact absurd (hsome j hd hfh h1 he1) hc1
  · intro j hd w hfh hw hc
    obtain ⟨-, -, hdel, -, -⟩ :=
      mouseScan_of_firstHit_some e s.order s.windows 0 j hd hfh
    have hmain : (s.processEvent e).windows hd
        = some (w.event { e with a := wrap64 (e.a - w.x), b := wrap64 (e.b - w.y) }) := by
      rw [hwin]
      exact hdel w hw hc
    refine ⟨hmain, fun ra1 ra2 rb1 rb2 => ?_⟩
    rw [hmain, wrap64_eq_self _ ra1 ra2, wrap64_eq_self _ rb1 rb2]

/-- C8: a button-press pointer event processed while not dragging that hits
the window at scan index `i` of `order` promotes that window: for `i > 0`
its handle is removed and reinserted at the front, leaving `order` a
permutation of its previous contents with the hit window topmost; for
`i = 0` `order` is unchanged. -/
theorem c8_focus_promotion (s : OrbitalScheme) (e : Event)
    (hdrag : s.dragging = false) (hm : e.code = EVENT_MOUSE) (hp : 0 < e.c)
    (i hd : Nat)
    (hhit : firstHit s.windows (wrap32 e.a) (wrap32 e.b) s.order 0 = some (i, hd)) :
    (s.processEvent e).order.head? = some hd
    ∧ (s.processEvent e).order.Perm s.order
    ∧ (0 < i → (s.processEvent e).order = hd :: s.order.eraseIdx i)
    ∧ (i = 0 → (s.processEvent e).order = s.order) :=
  processEvent_click_order s e hdrag hm hp i hd hhit

/-- Two overlapping windows on an 800x600 display: handle 1 is a 100x100
window at (20,20), handle 2 a 100x100 window at (50,50); handle 2 is
topmost (`order = [2, 1]`). -/
def twoWinState : OrbitalScheme :=
  (((OrbitalScheme.new 800 600).openWindow "o/20/20/100/100/A" 0 0).1.openWindow
    "o/50/50/100/100/B" 0 0).1

/-- A button-press pointer event at the given screen position. -/
def clickEvent (px py : Int) : Event :=
  { code := EVENT_MOUSE, a := px, b := py, c := 1 }

/-- Witness for `c7_hit_test_occlusion`: a click at (60,60), inside both
windows' rectangles; only topmost handle 2 is scanned (index 0). -/
theorem c7_hit_test_occlusion_witness :
    (twoWinState.dragging = false ∧ (clickEvent 60 60).code = EVENT_MOUSE)
    ∧ ((∀ h1 h2 : Nat,
          (twoWinState.processEvent (clickEvent 60 60)).windows h1 ≠ twoWinState.windows h1 →
          (twoWinState.processEvent (clickEvent 60 60)).windows h2 ≠ twoWinState.windows h2 →
          h1 = h2)
      ∧ (∀ (j hd : Nat),
          firstHit twoWinState.windows (wrap32 (clickEvent 60 60).a)
              (wrap32 (clickEvent 60 60).b) twoWinState.order 0 = some (j, hd) →
          ∀ h2 : Nat, h2 ≠ hd →
          (twoWinState.processEvent (clickEvent 60 60)).windows h2 = twoWinState.windows h2)
      ∧ (firstHit twoWinState.windows (wrap32 (clickEvent 60 60).a)
            (wrap32 (clickEvent 60 60).b) twoWinState.order 0 = none →
          ∀ h2 : Nat,
          (twoWinState.processEvent (clickEvent 60 60)).windows h2 = twoWinState.windows h2)
      ∧ (∀ (j hd : Nat) (w : Window),
          firstHit twoWinState.windows (wrap32 (clickEvent 60 60).a)
              (wrap32 (clickEvent 60 60).b) twoWinState.order 0 = some (j, hd) →
          twoWinState.windows hd = some w →
          w.contains (wrap32 (clickEvent 60 60).a) (wrap32 (clickEvent 60 60).b) = true →
          (twoWinState.processEvent (clickEvent 60 60)).windows hd
            = some (w.event { clickEvent 60 60 with
                a := wrap64 ((clickEvent 60 60).a - w.x),
                b := wrap64 ((clickEvent 60 60).b - w.y) })
          ∧ (-i64Half ≤ (clickEvent 60 60).a - w.x → (clickEvent 60 60).a - w.x < i64Half →
             -i64Half ≤ (clickEvent 60 60).b - w.y → (clickEvent 60 60).b - w.y < i64Half →
             (twoWinState.processEvent (clickEvent 60 60)).windows hd
               = some (w.event { clickEvent 60 60 with
                   a := (clickEvent 60 60).a - w.x,
                   b := (clickEvent 60 60).b - w.y })))) :=
  ⟨⟨by decide, by decide⟩,
   c7_hit_test_occlusion twoWinState (clickEvent 60 60) (by decide) (by decide)⟩

/-- Witness for `c8_focus_promotion`: a click at (25,25) hits handle 1 at
scan index 1; `order` goes from `[2, 1]` to `[1, 2]`. -/
theorem c8_focus_promotion_witness :
    (twoWinState.dragging = false ∧ (clickEvent 25 25).code = EVENT_MOUSE
      ∧ (0:Int) < (clickEvent 25 25).c
      ∧ firstHit twoWinState.windows (wrap32 (clickEvent 25 25).a)
          (wrap32 (clickEvent 25 25).b) twoWinState.order 0 = some (1, 1))
    ∧ ((twoWinState.processEvent (clickEvent 25 25)).order.head? = some 1
      ∧ (twoWinState.processEvent (clickEvent 25 25)).order.Perm twoWinState.order
      ∧ (0 < 1 → (twoWinState.processEvent (clickEvent 25 25)).order
            = 1 :: twoWinState.order.eraseIdx 1)
      ∧ (1 = 0 → (twoWinState.processEvent (clickEvent 25 25)).order = twoWinState.order)) :=
  ⟨⟨by decide, by decide, by decide, by decide⟩,
   c8_focus_promotion twoWinState (clickEvent 25 25) (by decide) (by decide) (by decide)
     1 1 (by decide)⟩

theorem read_preserves_redraw (s : OrbitalScheme) (id n : Nat) :
    (s.read id n).1.redraw = s.redraw := by
  unfold OrbitalScheme.read
  cases hw : s.windows id
  · rfl
  · rfl

theorem phaseB_reads_redraw (rs : List Request) :
    ∀ s : OrbitalScheme, (∀ r ∈ rs, ∃ id n, r = Request.rRead id n) →
    (s.phaseB rs).redraw = s.redraw := by
  induction rs with
  | nil => intro s h; rfl
  | cons r rest ih =>
    intro s h
    obtain ⟨id, n, rfl⟩ := h r (List.mem_cons_self r rest)
    show (OrbitalScheme.phaseB (s.read id n).1 rest).redraw = s.redraw
    rw [ih _ (fun r2 hr2 => h r2 (List.mem_cons_of_mem _ hr2))]
    exact read_preserves_redraw s id n

theorem phaseC_parts (t : OrbitalScheme) :
    t.phaseC.2 = t.redraw ∧ t.phaseC.1.redraw = false := by
  unfold OrbitalScheme.phaseC
  cases hr : t.redraw <;> simp [hr]

/-- C9: Phase C composites and presents in an iteration exactly when the
`redraw` flag is true when the phase starts, and running the iteration
always leaves the flag cleared; hence when the next iteration drains no
input events and its protocol batch contains only reads (no writes, no
open/close), that iteration performs no composite or present. -/
theorem c9_idempotent_redraw (s : OrbitalScheme) (es1 : List Event)
    (rs1 : List Request) (rs2 : List Request)
    (hro : ∀ r ∈ rs2, ∃ id n, r = Request.rRead id n) :
    (∀ (t : OrbitalScheme) (es : List Event) (rs : List Request),
        t.phaseC.2 = t.redraw
        ∧ t.phaseC.1.redraw = false
        ∧ (t.iteration es rs).2 = ((t.phaseA es).phaseB rs).redraw
        ∧ (t.iteration es rs).1.redraw = false)
    ∧ ((s.iteration es1 rs1).1.iteration [] rs2).2 = false := by
  have hparts : ∀ (t : OrbitalScheme) (es : List Event) (rs : List Request),
      t.phaseC.2 = t.redraw
      ∧ t.phaseC.1.redraw = false
      ∧ (t.iteration es rs).2 = ((t.phaseA es).phaseB rs).redraw
      ∧ (t.iteration es rs).1.redraw = false := by
    intro t es rs
    refine ⟨(phaseC_parts t).1, (phaseC_parts t).2, ?_, ?_⟩
    · exact (phaseC_parts ((t.phaseA es).phaseB rs)).1
    · exact (phaseC_parts ((t.phaseA es).phaseB rs)).2
  refine ⟨hparts, ?_⟩
  have h2 : ((s.iteration es1 rs1).1.iteration [] rs2).2
      = (((s.iteration es1 rs1).1.phaseA []).phaseB rs2).redraw :=
    (hparts _ [] rs2).2.2.1
  rw [h2]
  have hA : (s.iteration es1 rs1).1.phaseA [] = (s.iteration es1 rs1).1 := rfl
  rw [hA, phaseB_reads_redraw rs2 _ hro]
  exact (hparts s es1 rs1).2.2.2

theorem read_proj (s : OrbitalScheme) (id n : Nat) :
    (s.read id n).1.order = s.order
    ∧ (∀ h : Nat, ((s.read id n).1.windows h).isSome = (s.windows h).isSome)
    ∧ (s.read id n).1.next_id = s.next_id
    ∧ (s.read id n).1.next_x = s.next_x
    ∧ (s.read id n).1.next_y = s.next_y := by
  unfold OrbitalScheme.read
  cases hw : s.windows id with
  | none => exact ⟨rfl, fun h => rfl, rfl, rfl, rfl⟩
  | some w =>
    refine ⟨rfl, ?_, rfl, rfl, rfl⟩
    intro h
    dsimp only
    by_cases he : h = id <;> simp [he, hw]

theorem write_proj (s : OrbitalScheme) (id : Nat) (buf : List Nat) :
    (s.write id buf).1.order = s.order
    ∧ (∀ h : Nat, ((s.write id buf).1.windows h).isSome = (s.windows h).isSome)
    ∧ (s.write id buf).1.next_id = s.next_id
    ∧ (s.write id buf).1.next_x = s.next_x
    ∧ (s.write id buf).1.next_y = s.next_y := by
  unfold OrbitalScheme.write
  cases hw : s.windows id with
  | none => exact ⟨rfl, fun h => rfl, rfl, rfl, rfl⟩
  | some w =>
    refine ⟨rfl, ?_, rfl, rfl, rfl⟩
    intro h
    dsimp only
    by_cases he : h = id <;> simp [he, hw]

theorem close_proj (s : OrbitalScheme) (id : Nat) :
    (s.close id).1.order = s.order.filter (fun e => decide (e ≠ id))
    ∧ (∀ h : Nat, ((s.close id).1.windows h).isSome
        = (decide (h ≠ id) && (s.windows h).isSome))
    ∧ (s.close id).1.next_id = s.next_id
    ∧ (s.close id).1.next_x = s.next_x
    ∧ (s.close id).1.next_y = s.next_y := by
  unfold OrbitalScheme.close
  cases hw : s.windows id with
  | none =>
    refine ⟨rfl, ?_, rfl, rfl, rfl⟩
    intro h
    by_cases he : h = id <;> simp [he, hw]
  | some w =>
    refine ⟨rfl, ?_, rfl, rfl, rfl⟩
    intro h
    dsimp only
    by_cases he : h = id <;> simp [he, hw]

theorem processEvent_parts (s : OrbitalScheme) (e : Event) :
    (s.processEvent e).order.Perm s.order
    ∧ (∀ h : Nat, ((s.processEvent e).windows h).isSome = (s.windows h).isSome)
    ∧ (s.processEvent e).next_id = s.next_id
    ∧ (s.processEvent e).next_x = s.next_x
    ∧ (s.processEvent e).next_y = s.next_y := by
  by_cases hk : e.code = EVENT_KEY
  · unfold OrbitalScheme.processEvent
    rw [if_pos hk]
    cases hh : s.order.head? with
    | none => exact ⟨List.Perm.refl _, fun h => rfl, rfl, rfl, rfl⟩
    | some id =>
      dsimp only
      cases hw : s.windows id with
      | none => exact ⟨List.Perm.refl _, fun h => rfl, rfl, rfl, rfl⟩
      | some w =>
        dsimp only
        refine ⟨List.Perm.refl _, ?_, rfl, rfl, rfl⟩
        intro h
        by_cases he : h = id <;> simp [he, hw]
  · by_cases hm : e.code = EVENT_MOUSE
    · by_cases hdr : s.dragging = true
      · unfold OrbitalScheme.processEvent
        rw [if_neg hk, if_pos hm]
        dsimp only
        rw [hdr]
        simp only [if_true]
        by_cases hc : 0 < e.c
        · rw [if_pos hc]
          cases hh : s.order.head? with
          | none => exact ⟨List.Perm.refl _, fun h => rfl, rfl, rfl, rfl⟩
          | some id =>
            dsimp only
            cases hw : s.windows id with
            | none => exact ⟨List.Perm.refl _, fun h => rfl, rfl, rfl, rfl⟩
            | some w =>
              dsimp only
              refine ⟨List.Perm.refl _, ?_, rfl, rfl, rfl⟩
              intro h
              by_cases he : h = id <;> simp [he, hw]
        · rw [if_neg hc]
          exact ⟨List.Perm.refl _, fun h => rfl, rfl, rfl, rfl⟩
      · have hdf : s.dragging = false := by
          cases hx : s.dragging
          · rfl
          · exact absurd hx hdr
        obtain ⟨hwin, hord, -, hnid, hnx, hny⟩ := processEvent_nodrag_parts s e hm hdf
        refine ⟨?_, ?_, hnid, hnx, hny⟩
        · rw [hord]
          by_cases hf : 0 < (mouseScan s.windows e s.order 0).focus
          · rw [if_pos hf]
            cases hg : s.order.get? (mouseScan s.windows e s.order 0).focus with
            | some id =>
              dsimp only
              exact perm_cons_eraseIdx s.order _ id hg
            | none => exact List.Perm.refl _
          · rw [if_neg hf]
        · intro h
          rw [hwin]
          exact mouseScan_wins_isSome e s.order s.windows 0 h
    · unfold OrbitalScheme.processEvent
      rw [if_neg hk, if_neg hm]
      exact ⟨List.Perm.refl _, fun h => rfl, rfl, rfl, rfl⟩

/-- The z-order/focus consistency invariant: `order` is duplicate-free and
carries exactly the key set of `windows`. -/
def GoodState (s : OrbitalScheme) : Prop :=
  s.order.Nodup ∧ ∀ h : Nat, h ∈ s.order ↔ (s.windows h).isSome = true

/-- Handle bookkeeping after `k` opens: the counter sits at `1 + k` and
every handle in `order` is positive and at most `k`. -/
def IdsBounded (s : OrbitalScheme) (k : Nat) : Prop :=
  s.next_id = 1 + (k : Int) ∧ ∀ h ∈ s.order, 1 ≤ h ∧ h ≤ k

theorem step_open_inv (s : OrbitalScheme) (p : String) (fl md : Nat) (k : Nat)
    (hg : GoodState s) (hb : IdsBounded s k) (hk : (k : Int) ≤ i64Half - 3) :
    GoodState (s.openWindow p fl md).1 ∧ IdsBounded (s.openWindow p fl md).1 (k + 1) := by
  obtain ⟨hnd, hmem⟩ := hg
  obtain ⟨hnid, hbnd⟩ := hb
  have hid : usizeOfIsize s.next_id = k + 1 := by
    rw [hnid, usizeOfIsize_eq_toNat _ (by omega) (by unfold i64Half i64Mod at *; omega)]
    omega
  obtain ⟨-, hord, -, -, hwins, -⟩ := openWindow_proj s p fl md
  obtain ⟨hnid', -⟩ := open_next_id_no_wrap s p fl md (by omega)
    (by rw [hnid]; omega)
  refine ⟨⟨?_, ?_⟩, ?_, ?_⟩
  · rw [hord, hid]
    refine List.Nodup.cons ?_ hnd
    intro hc
    have := hbnd _ hc
    omega
  · intro h
    rw [hord, hid, hwins h, hid]
    simp only [List.mem_cons, Bool.or_eq_true, decide_eq_true_eq]
    rw [hmem h]
  · rw [hnid', hnid]
    push_cast
    ring
  · intro h hmem2
    rw [hord, hid] at hmem2
    rcases List.mem_cons.mp hmem2 with hcase | hcase
    · omega
    · have := hbnd _ hcase
      omega

theorem step_close_inv (s : OrbitalScheme) (id : Nat) (k : Nat)
    (hg : GoodState s) (hb : IdsBounded s k) :
    GoodState (s.close id).1 ∧ IdsBounded (s.close id).1 k := by
  obtain ⟨hnd, hmem⟩ := hg
  obtain ⟨hnid, hbnd⟩ := hb
  obtain ⟨hord, hwins, hnid', -, -⟩ := close_proj s id
  refine ⟨⟨?_, ?_⟩, ?_, ?_⟩
  · rw [hord]
    exact hnd.filter _
  · intro h
    rw [hord, hwins h]
    simp only [List.mem_filter, decide_eq_true_eq, Bool.and_eq_true]
    rw [hmem h]
    tauto
  · rw [hnid', hnid]
  · intro h hmem2
    rw [hord] at hmem2
    exact hbnd _ (List.mem_of_mem_filter hmem2)

theorem step_event_inv (s : OrbitalScheme) (e : Event) (k : Nat)
    (hg : GoodState s) (hb : IdsBounded s k) :
    GoodState (s.processEvent e) ∧ IdsBounded (s.processEvent e) k := by
  obtain ⟨hnd, hmem⟩ := hg
  obtain ⟨hnid, hbnd⟩ := hb
  obtain ⟨hperm, hwins, hnid', -, -⟩ := processEvent_parts s e
  refine ⟨⟨?_, ?_⟩, ?_, ?_⟩
  · exact hperm.nodup_iff.mpr hnd
  · intro h
    rw [hperm.mem_iff, hwins h]
    exact hmem h
  · rw [hnid', hnid]
  · intro h hmem2
    exact hbnd _ (hperm.mem_iff.mp hmem2)

theorem step_read_inv (s : OrbitalScheme) (id n : Nat) (k : Nat)
    (hg : GoodState s) (hb : IdsBounded s k) :
    GoodState (s.read id n).1 ∧ IdsBounded (s.read id n).1 k := by
  obtain ⟨hnd, hmem⟩ := hg
  obtain ⟨hnid, hbnd⟩ := hb
  obtain ⟨hord, hwins, hnid', -, -⟩ := read_proj s id n
  exact ⟨⟨hord ▸ hnd, fun h => by rw [hord, hwins h]; exact hmem h⟩,
    by rw [hnid', hnid], fun h hm => hbnd _ (hord ▸ hm)⟩

theorem step_write_inv (s : OrbitalScheme) (id : Nat) (buf : List Nat) (k : Nat)
    (hg : GoodState s) (hb : IdsBounded s k) :
    GoodState (s.write id buf).1 ∧ IdsBounded (s.write id buf).1 k := by
  obtain ⟨hnd, hmem⟩ := hg
  obtain ⟨hnid, hbnd⟩ := hb
  obtain ⟨hord, hwins, hnid', -, -⟩ := write_proj s id buf
  exact ⟨⟨hord ▸ hnd, fun h => by rw [hord, hwins h]; exact hmem h⟩,
    by rw [hnid', hnid], fun h hm => hbnd _ (hord ▸ hm)⟩

theorem run_good (ops : List Op) :
    ∀ (s : OrbitalScheme) (k : Nat), GoodState s → IdsBounded s k →
    ((k + countOpens ops : Nat) : Int) ≤ i64Half - 2 →
    GoodState (s.run ops) ∧ IdsBounded (s.run ops) (k + countOpens ops) := by
  induction ops with
  | nil =>
    intro s k hg hb hle
    have h0 : countOpens [] = 0 := rfl
    rw [h0]
    exact ⟨hg, by simpa using hb⟩
  | cons op rest ih =>
    intro s k hg hb hle
    have hrun : s.run (op :: rest) = (s.step op).run rest := rfl
    rw [hrun]
    cases op with
    | screenEvent e =>
      have hco : countOpens (Op.screenEvent e :: rest) = countOpens rest := rfl
      rw [hco] at hle ⊢
      obtain ⟨hg', hb'⟩ := step_event_inv s e k hg hb
      exact ih _ k hg' hb' hle
    | request r =>
      cases r with
      | rOpen p fl md =>
        have hco : countOpens (Op.request (Request.rOpen p fl md) :: rest)
            = countOpens rest + 1 := rfl
        rw [hco] at hle ⊢
        have hk3 : (k : Int) ≤ i64Half - 3 := by
          push_cast at hle
          omega
        obtain ⟨hg', hb'⟩ := step_open_inv s p fl md k hg hb hk3
        have hstep : s.step (Op.request (Request.rOpen p fl md))
            = (s.openWindow p fl md).1 := rfl
        rw [hstep]
        have hres := ih _ (k + 1) hg' hb' (by push_cast at hle ⊢; omega)
        have harr : k + (countOpens rest + 1) = (k + 1) + countOpens rest := by omega
        rw [harr]
        exact hres
      | rRead id n =>
        have hco : countOpens (Op.request (Request.rRead id n) :: rest)
            = countOpens rest := rfl
        rw [hco] at hle ⊢
        obtain ⟨hg', hb'⟩ := step_read_inv s id n k hg hb
        exact ih _ k hg' hb' hle
      | rWrite id buf =>
        have hco : countOpens (Op.request (Request.rWrite id buf) :: rest)
            = countOpens rest := rfl
        rw [hco] at hle ⊢
        obtain ⟨hg', hb'⟩ := step_write_inv s id buf k hg hb
        exact ih _ k hg' hb' hle
      | rClose id =>
        have hco : countOpens (Op.request (Request.rClose id) :: rest)
            = countOpens rest := rfl
        rw [hco] at hle ⊢
        obtain ⟨hg', hb'⟩ := step_close_inv s id k hg hb
        exact ih _ k hg' hb' hle

/-- C1 amended: for every sequence of operations from the initial state in
which fewer than `2^63 - 1` opens occur (no handle-counter wraparound),
`order` carries exactly the key set of `windows` with no duplicate
handles; moreover after any `open` the new handle is at `order.front()`,
and after any button-press click that hits a window, that window's handle
is at `order.front()`. -/
theorem c1_zorder_focus_amended (dw dh : Int) (ops : List Op)
    (hops : ((countOpens ops : Nat) : Int) ≤ i64Half - 2) :
    (((OrbitalScheme.new dw dh).run ops).order.Nodup
      ∧ (∀ h : Nat, h ∈ ((OrbitalScheme.new dw dh).run ops).order
            ↔ ((((OrbitalScheme.new dw dh).run ops).windows h).isSome = true)))
    ∧ (∀ (t : OrbitalScheme) (p : String) (fl md : Nat),
        (t.openWindow p fl md).2 = Except.ok (usizeOfIsize t.next_id)
        ∧ (t.openWindow p fl md).1.order.head? = some (usizeOfIsize t.next_id))
    ∧ (∀ (t : OrbitalScheme) (e : Event) (i hd : Nat),
        t.dragging = false → e.code = EVENT_MOUSE → 0 < e.c →
        firstHit t.windows (wrap32 e.a) (wrap32 e.b) t.order 0 = some (i, hd) →
        (t.processEvent e).order.head? = some hd) := by
  refine ⟨?_, ?_, ?_⟩
  · have hg0 : GoodState (OrbitalScheme.new dw dh) := by
      constructor
      · exact List.nodup_nil
      · intro h
        constructor
        · intro hm
          exact absurd hm (List.not_mem_nil h)
        · intro hs
          exact absurd hs (by simp [OrbitalScheme.new])
    have hb0 : IdsBounded (OrbitalScheme.new dw dh) 0 := by
      constructor
      · simp [OrbitalScheme.new]
      · intro h hm
        exact absurd hm (List.not_mem_nil h)
    have hrg := (run_good ops (OrbitalScheme.new dw dh) 0 hg0 hb0 (by simpa using hops)).1
    exact hrg
  · intro t p fl md
    obtain ⟨hres, hord, -⟩ := openWindow_proj t p fl md
    refine ⟨hres, ?_⟩
    rw [hord]
    rfl
  · intro t e i hd hdr hm hp hhit
    exact (processEvent_click_order t e hdr hm hp i hd hhit).1

/-- One `open` request with an empty path, as a state transformer. -/
def openStep (t : OrbitalScheme) : OrbitalScheme := (t.openWindow "" 0 0).1

theorem run_replicate_open (k : Nat) :
    ∀ t : OrbitalScheme,
    t.run (List.replicate k (Op.request (Request.rOpen "" 0 0))) = openStep^[k] t := by
  induction k with
  | zero => intro t; rfl
  | succ k ihk =>
    intro t
    rw [List.replicate_succ, Function.iterate_succ_apply]
    exact ihk (openStep t)

theorem openStep_order (t : OrbitalScheme) :
    (openStep t).order = usizeOfIsize t.next_id :: t.order :=
  (openWindow_proj t "" 0 0).2.1

theorem iter_openStep_next_id (k : Nat) :
    ∀ t : OrbitalScheme, 1 ≤ t.next_id → t.next_id + (k : Int) ≤ i64Half - 1 →
    (openStep^[k] t).next_id = t.next_id + (k : Int) := by
  induction k with
  | zero => intro t h1 h2; simp
  | succ k ihk =>
    intro t h1 h2
    rw [Function.iterate_succ_apply]
    have hk2 : t.next_id ≤ i64Half - 2 := by
      push_cast at h2
      omega
    have hstep : (openStep t).next_id = t.next_id + 1 :=
      (open_next_id_no_wrap t "" 0 0 h1 hk2).1
    have hrec := ihk (openStep t) (by rw [hstep]; omega)
      (by rw [hstep]; push_cast at h2 ⊢; omega)
    rw [hrec, hstep]
    push_cast
    ring

theorem iter_openStep_mem (k : Nat) :
    ∀ (t : OrbitalScheme) (h : Nat), h ∈ t.order → h ∈ (openStep^[k] t).order := by
  induction k with
  | zero => intro t h hm; simpa using hm
  | succ k ihk =>
    intro t h hm
    rw [Function.iterate_succ_apply]
    refine ihk (openStep t) h ?_
    rw [openStep_order]
    exact List.mem_cons_of_mem _ hm

/-- C1 counterexample: the claim quantifies over every operation sequence,
but after `2^63` opens (handle-counter wraparound) the compositor pushes
handle `1` onto `order` a second time while window `1` is still open, so
`order` holds a duplicate handle. -/
theorem c1_counterexample :
    ¬ ((OrbitalScheme.new 800 600).run
        (List.replicate 9223372036854775808
          (Op.request (Request.rOpen "" 0 0)))).order.Nodup := by
  rw [run_replicate_open]
  have hsplit : (9223372036854775808 : Nat) = 9223372036854775806 + 1 + 1 := by
    norm_num
  rw [hsplit, Function.iterate_succ_apply', Function.iterate_succ_apply']
  have hAnid : (openStep^[9223372036854775806] (OrbitalScheme.new 800 600)).next_id
      = 9223372036854775807 := by
    have hiter := iter_openStep_next_id 9223372036854775806 (OrbitalScheme.new 800 600)
      (by norm_num [OrbitalScheme.new])
      (by norm_num [OrbitalScheme.new, i64Half])
    rw [hiter]
    norm_num [OrbitalScheme.new]
  have h1mem : (1 : Nat) ∈ (openStep^[9223372036854775806]
      (OrbitalScheme.new 800 600)).order := by
    have h1 : (1 : Nat) ∈ (openStep (OrbitalScheme.new 800 600)).order := by
      rw [openStep_order]
      have husz : usizeOfIsize (OrbitalScheme.new 800 600).next_id = 1 := by decide
      rw [husz]
      exact List.mem_cons_self 1 _
    have hsplit2 : (9223372036854775806 : Nat) = 9223372036854775805 + 1 := by
      norm_num
    rw [hsplit2, Function.iterate_succ_apply]
    exact iter_openStep_mem 9223372036854775805 _ 1 h1
  have hBnid : (openStep (openStep^[9223372036854775806]
      (OrbitalScheme.new 800 600))).next_id = 1 := by
    refine (open_next_id_wrap _ "" 0 0 ?_).1
    rw [hAnid]
    unfold i64Half
    norm_num
  have hBmem : (1 : Nat) ∈ (openStep (openStep^[9223372036854775806]
      (OrbitalScheme.new 800 600))).order := by
    rw [openStep_order]
    exact List.mem_cons_of_mem _ h1mem
  rw [openStep_order, hBnid]
  have husz1 : usizeOfIsize 1 = 1 := by decide
  rw [husz1]
  intro hnd
  exact (List.nodup_cons.mp hnd).1 hBmem

/-- Operation history for the C1 witness: two opens, a focus click on the
partially covered window, and a close. -/
def c1ops : List Op :=
  [Op.request (Request.rOpen "o/20/20/100/100/A" 0 0),
   Op.request (Request.rOpen "o/50/50/100/100/B" 0 0),
   Op.screenEvent (clickEvent 25 25),
   Op.request (Request.rClose 2)]

/-- Witness for `c1_zorder_focus_amended`: the invariant after a concrete
open/open/click/close history. -/
theorem c1_zorder_focus_witness :
    (((countOpens c1ops : Nat) : Int) ≤ i64Half - 2)
    ∧ (((OrbitalScheme.new 800 600).run c1ops).order.Nodup
      ∧ (∀ h : Nat, h ∈ ((OrbitalScheme.new 800 600).run c1ops).order
            ↔ ((((OrbitalScheme.new 800 600).run c1ops).windows h).isSome = true))) :=
  ⟨by decide, (c1_zorder_focus_amended 800 600 c1ops (by decide)).1⟩

/-- Witness for `c9_idempotent_redraw`: after a full iteration, a second
iteration that drains no events and only a read performs no composite. -/
theorem c9_idempotent_redraw_witness :
    (∀ r ∈ [Request.rRead 1 64], ∃ id n, r = Request.rRead id n)
    ∧ ((twoWinState.iteration [] []).1.iteration [] [Request.rRead 1 64]).2 = false :=
  ⟨fun r hr => ⟨1, 64, by simpa using hr⟩,
   (c9_idempotent_redraw twoWinState [] [] [Request.rRead 1 64]
     (fun r hr => ⟨1, 64, by simpa using hr⟩)).2⟩
